import Mathlib

/-!
Verification of the WatchPoint-IPTV playlist updater (Playlist_Updater.py).

Strings are modelled as lists of characters (`List Char`); each Python
function of the script is translated into an executable Lean definition
over that representation.  The two nested scanning loops of
`parse_m3u_playlist` are rendered as a single structural recursion over
the line list carrying the pending channel block as explicit state.
-/

namespace WatchPoint

/-- Convert a Lean string literal to the character-list representation. -/
def str (s : String) : List Char := s.data

/-- Characters removed by the Python str.strip method (ASCII whitespace). -/
def isSpaceChar (c : Char) : Bool :=
  c = ' ' || c = '\t' || c = '\n' || c = '\r' || c = '\x0b' || c = '\x0c'

/-- Left strip, as in Python str.strip (left half). -/
def ltrim (l : List Char) : List Char := l.dropWhile isSpaceChar

/-- Right strip. -/
def rtrim (l : List Char) : List Char := (ltrim l.reverse).reverse

/-- Python str.strip. -/
def trim (l : List Char) : List Char := rtrim (ltrim l)

/-- Python str.startswith on the character-list representation
    (first argument is the candidate leading segment). -/
def lstartsWith : List Char → List Char → Bool
  | [], _ => true
  | _ :: _, [] => false
  | p :: ps, c :: cs => decide (p = c) && lstartsWith ps cs

/-- Python str.lower (ASCII). -/
def lowerList (l : List Char) : List Char := l.map Char.toLower

/-- Python str.split with a one-character separator. -/
def splitOnChar (sep : Char) : List Char → List (List Char)
  | [] => [[]]
  | c :: rest =>
    match splitOnChar sep rest with
    | [] => [[]]
    | g :: gs => if c = sep then [] :: g :: gs else (c :: g) :: gs

/-- Python '.'.join. -/
def joinDots : List (List Char) → List Char
  | [] => []
  | [p] => p
  | p :: ps => p ++ '.' :: joinDots ps

/-- Split a string at its first colon: some (before, after), or none. -/
def breakAtColon : List Char → Option (List Char × List Char)
  | [] => none
  | c :: rest =>
    if c = ':' then some ([], rest)
    else
      match breakAtColon rest with
      | some (pre, post) => some (c :: pre, post)
      | none => none

/-- Characters urllib.parse allows inside a URL scheme. -/
def isSchemeChar (c : Char) : Bool :=
  c.isAlpha || c.isDigit || c = '+' || c = '-' || c = '.'

/-- Drop a leading scheme as urllib.parse.urlsplit does: the text before the
    first colon is removed when it is non-empty, starts with an ASCII letter
    and consists of scheme characters. -/
def removeScheme (u : List Char) : List Char :=
  match breakAtColon u with
  | some (pre, post) =>
    match pre with
    | [] => u
    | c0 :: _ => if c0.isAlpha && pre.all isSchemeChar then post else u
  | none => u

/-- The netloc of urlsplit: present only after a leading "//", running to the
    first '/', '?' or '#'. -/
def getNetloc (u : List Char) : Option (List Char) :=
  match u with
  | '/' :: '/' :: rest =>
    some (rest.takeWhile (fun c => decide (c ≠ '/') && decide (c ≠ '?') && decide (c ≠ '#')))
  | _ => none

/-- Python str.rpartition('@') third component. -/
def afterLastAt (l : List Char) : List Char :=
  (l.reverse.takeWhile (fun c => decide (c ≠ '@'))).reverse

/-- Everything after the first occurrence of a character (empty if absent). -/
def afterFirstChar (sep : Char) : List Char → List Char
  | [] => []
  | c :: rest => if c = sep then rest else afterFirstChar sep rest

/-- Lowercasing of a parsed hostname (an IPv6 zone after '%' is preserved). -/
def lowerHost (h : List Char) : List Char :=
  (h.takeWhile (fun c => decide (c ≠ '%'))).map Char.toLower ++
    h.dropWhile (fun c => decide (c ≠ '%'))

/-- urlparse(url).hostname or "" as used by extract_provider_domain, with the
    ValueError raised on unbalanced brackets mapped to the except-branch
    result "". -/
def urlHostname (url : List Char) : List Char :=
  let u := removeScheme url
  match getNetloc u with
  | none => []
  | some netloc =>
    if decide ('[' ∈ netloc) != decide (']' ∈ netloc) then []
    else
      let hostinfo := afterLastAt netloc
      let host :=
        if '[' ∈ hostinfo then
          (afterFirstChar '[' hostinfo).takeWhile (fun c => decide (c ≠ ']'))
        else hostinfo.takeWhile (fun c => decide (c ≠ ':'))
      if host = [] then [] else lowerHost host

/-- The regex ^\d+\.\d+\.\d+\.\d+$ of the script. -/
def isIPv4 (h : List Char) : Bool :=
  let parts := splitOnChar '.' h
  decide (parts.length = 4) && parts.all (fun p => !p.isEmpty && p.all Char.isDigit)

/-- extract_provider_domain of Playlist_Updater.py. -/
def extract_provider_domain (url : List Char) : List Char :=
  let hostname := urlHostname url
  let hostname := hostname.takeWhile (fun c => decide (c ≠ ':'))
  if isIPv4 hostname then hostname
  else
    let parts := splitOnChar '.' hostname
    if 2 ≤ parts.length then joinDots (parts.drop (parts.length - 2))
    else hostname

/-- One attempt of the regex tvg-id="([^"]+)" at the start of the list:
    succeeds only when the literal prefix is present, at least one non-quote
    character follows it, and a closing quote terminates the run. -/
def matchTvgAt (l : List Char) : Option (List Char) :=
  if lstartsWith (str "tvg-id=\"") l then
    let rest := l.drop 8
    let captured := rest.takeWhile (fun c => decide (c ≠ '"'))
    if captured = [] then none
    else if captured.length = rest.length then none
    else some captured
  else none

/-- re.search of tvg-id="([^"]+)": leftmost successful position wins. -/
def extractTvgId : List Char → Option (List Char)
  | [] => none
  | c :: rest =>
    match matchTvgAt (c :: rest) with
    | some s => some s
    | none => extractTvgId rest

/-- re.search of ,(.+)$ followed by .strip(): the text after the first comma
    that is followed by at least one character, stripped; empty otherwise. -/
def extractName : List Char → List Char
  | [] => []
  | c :: rest =>
    if c = ',' then (if rest = [] then [] else trim rest)
    else extractName rest

/-- name.strip().lower(), the display-name matching key. -/
def nameKey (n : List Char) : List Char := lowerList (trim n)

/-- The channel dictionary built by parse_m3u_playlist. -/
structure Channel where
  extinf : List Char
  url : List Char
  extras : List (List Char)
  tvg_id : Option (List Char)
  name : List Char
  provider : List Char
  original_index : Nat
deriving DecidableEq, Repr

/-- The dictionary literal appended by parse_m3u_playlist. -/
def mkChannel (line url : List Char) (extras : List (List Char)) (idx : Nat) : Channel :=
  { extinf := line
    url := url
    extras := extras
    tvg_id := extractTvgId line
    name := extractName line
    provider := extract_provider_domain url
    original_index := idx }

/-- The two nested loops of parse_m3u_playlist as a line-at-a-time state
    machine: the state none means "expecting a header", some (extinf, extras)
    means "inside a channel block, expecting extras or a URL".  A pending
    block reaching a new header or the end of input is dropped, exactly as
    the inner while loop of the script drops a channel without a URL. -/
def parse_aux : List (List Char) → Option (List Char × List (List Char)) → Nat → List Channel
  | [], _, _ => []
  | l :: rest, none, idx =>
    let c := trim l
    if c = [] ∨ c = str "#EXTM3U" then parse_aux rest none idx
    else if lstartsWith (str "#EXTINF") c then parse_aux rest (some (c, [])) idx
    else parse_aux rest none idx
  | l :: rest, some (extinf, extras), idx =>
    let c := trim l
    if lstartsWith (str "#EXTINF") c then parse_aux rest (some (c, [])) idx
    else if lstartsWith (str "http://") c || lstartsWith (str "https://") c then
      mkChannel extinf c extras idx :: parse_aux rest none (idx + 1)
    else parse_aux rest (some (extinf, extras ++ [l])) idx

/-- parse_m3u_playlist of Playlist_Updater.py. -/
def parse_m3u_playlist (lines : List (List Char)) : List Channel :=
  parse_aux lines none 0

/-- Python truthiness of the tvg_id field (None and "" are falsy). -/
def optTruthy : Option (List Char) → Bool
  | none => false
  | some s => !s.isEmpty

/-- The tvg-id loop of find_matching_channel. -/
def idMatch (c : Channel) (dc : List Channel) : Option Channel :=
  if optTruthy c.tvg_id then dc.find? (fun d => decide (d.tvg_id = c.tvg_id)) else none

/-- The display-name fallback loop of find_matching_channel. -/
def nameMatch (c : Channel) (dc : List Channel) : Option Channel :=
  if c.name = [] then none
  else dc.find? (fun d => decide (nameKey d.name = nameKey c.name))

/-- find_matching_channel of Playlist_Updater.py. -/
def find_matching_channel (c : Channel) (dc : List Channel) : Option Channel :=
  match idMatch c dc with
  | some d => some d
  | none => nameMatch c dc

/-- should_update_channel of Playlist_Updater.py. -/
def should_update_channel (l d : Channel) : Bool :=
  if l.provider ≠ d.provider then false
  else if l.url = d.url then false
  else true

/-- The lines a kept channel contributes to the output. -/
def channelBlock (c : Channel) : List (List Char) :=
  c.extinf :: c.extras ++ [c.url]

/-- The loop body of update_playlist for one local channel: the lines
    appended to output_lines and the increment of updated_count. -/
def channelLines (c : Channel) (dc : List Channel) : List (List Char) × Nat :=
  match find_matching_channel c dc with
  | some d =>
    if should_update_channel c d then
      (d.extinf :: ((if c.extras.isEmpty then d.extras else c.extras) ++ [d.url]), 1)
    else (channelBlock c, 0)
  | none => (channelBlock c, 0)

/-- The loop of update_playlist over all local channels. -/
def updateBody (dc : List Channel) : List Channel → List (List Char) × Nat
  | [] => ([], 0)
  | c :: cs =>
    let r := channelLines c dc
    let rest := updateBody dc cs
    (r.1 ++ rest.1, r.2 + rest.2)

/-- update_playlist of Playlist_Updater.py. -/
def update_playlist (lc dc : List Channel) : List (List Char) × Nat :=
  (str "#EXTM3U" :: (updateBody dc lc).1, (updateBody dc lc).2)

/-- Python newline join of the output lines. -/
def joinNewline : List (List Char) → List Char
  | [] => []
  | [l] => l
  | l :: ls => l ++ '\n' :: joinNewline ls

/-- save_playlist of Playlist_Updater.py, with the file system made explicit:
    given the lines and the current persisted content, it returns the content
    afterwards and whether a write happened. -/
def save_playlist (lines : List (List Char)) (existing : Option (List Char)) :
    Option (List Char) × Bool :=
  if lines.length ≤ 1 then (existing, false)
  else (some (joinNewline lines ++ ['\n']), true)

/-- get_local_channel_ids of Playlist_Updater.py (a Python set, modelled as a
    duplicate-free list; only membership is consumed downstream). -/
def get_local_channel_ids (lc : List Channel) : List (List Char) :=
  (lc.filterMap (fun c => if optTruthy c.tvg_id then c.tvg_id else none)).dedup

/-- An XMLTV element: tag, attributes, children. -/
inductive XmlElem : Type where
  | mk : List Char → List (List Char × List Char) → List XmlElem → XmlElem

/-- Element tag. -/
def elemTag : XmlElem → List Char
  | .mk t _ _ => t

/-- Element attributes (ElementTree attrib). -/
def elemAttrs : XmlElem → List (List Char × List Char)
  | .mk _ a _ => a

/-- Element children. -/
def elemChildren : XmlElem → List XmlElem
  | .mk _ _ c => c

/-- ElementTree get: first attribute with the key, if any. -/
def getAttr (e : XmlElem) (k : List Char) : Option (List Char) :=
  (elemAttrs e |>.find? (fun p => decide (p.1 = k))).map Prod.snd

mutual
/-- A subtree in document (preorder) order. -/
def preorderElems : XmlElem → List XmlElem
  | .mk t a cs => .mk t a cs :: preorderList cs
/-- The subtrees of a forest, concatenated in document order. -/
def preorderList : List XmlElem → List XmlElem
  | [] => []
  | c :: cs => preorderElems c ++ preorderList cs
end

/-- The findall method over './/tag': every strict descendant with the tag, document order. -/
def findall_desc (tag : List Char) (e : XmlElem) : List XmlElem :=
  (preorderList (elemChildren e)).filter (fun x => decide (elemTag x = tag))

/-- The channel dictionary of parse_xmltv_epg, as an association list. -/
abbrev EpgDict := List (List Char × XmlElem)

/-- Python dict key test. -/
def hasKey (d : EpgDict) (k : List Char) : Bool :=
  d.any (fun p => decide (p.1 = k))

/-- Python dict lookup. -/
def dictGet (d : EpgDict) (k : List Char) : Option XmlElem :=
  (d.find? (fun p => decide (p.1 = k))).map Prod.snd

/-- Python dict assignment: overwrite in place or append. -/
def dictInsert (d : EpgDict) (k : List Char) (v : XmlElem) : EpgDict :=
  if hasKey d k then d.map (fun p => if p.1 = k then (k, v) else p)
  else d ++ [(k, v)]

/-- One iteration of the channels_dict loop of parse_xmltv_epg: a channel
    element with a non-empty id attribute is stored under it. -/
def dictStep (d : EpgDict) (c : XmlElem) : EpgDict :=
  match getAttr c (str "id") with
  | some i => if i = [] then d else dictInsert d i c
  | none => d

/-- The channels_dict loop of parse_xmltv_epg: every descendant channel
    element with a non-empty id attribute, later ones overwriting. -/
def parse_channels_dict (root : XmlElem) : EpgDict :=
  (findall_desc (str "channel") root).foldl dictStep []

/-- filter_epg_by_channels of Playlist_Updater.py. -/
def filter_epg_by_channels (epg_root : XmlElem) (channel_ids : List (List Char))
    (channels_dict : EpgDict) : XmlElem :=
  let kept := channel_ids.filter (fun i => (dictGet channels_dict i).isSome)
  let chans := kept.filterMap (fun i => dictGet channels_dict i)
  let progs := (findall_desc (str "programme") epg_root).filter (fun p =>
    match getAttr p (str "channel") with
    | some r => decide (r ∈ kept)
    | none => false)
  XmlElem.mk (str "tv") (elemAttrs epg_root) (chans ++ progs)

/-- The control flow of main() and the __main__ wrapper, with the network
    and the file system made explicit: the upstream playlist fetch either
    yields lines or raises (Except.error); an uncaught exception reaches the
    top-level handler, which reports it and exits non-zero (the error
    result).  The EPG fetch yields an already-parsed document or none (the
    caught-exception path of fetch_drew_epg).  The ok result carries the
    persisted playlist content, updated_count, the epg_updated flag and the
    saved EPG document. -/
def runMain (drewFetch : Except (List Char) (List (List Char)))
    (localLines : List (List Char)) (savedFile : Option (List Char))
    (epgFetch : Option XmlElem) :
    Except (List Char) (Option (List Char) × Nat × Bool × Option XmlElem) :=
  match drewFetch with
  | Except.error e => Except.error e
  | Except.ok drewLines =>
    let drew := parse_m3u_playlist drewLines
    let locals := parse_m3u_playlist localLines
    let r := update_playlist locals drew
    let saved := (save_playlist r.1 savedFile).1
    match epgFetch with
    | none => Except.ok (saved, r.2, false, none)
    | some root =>
      let ids := get_local_channel_ids locals
      Except.ok (saved, r.2, true,
        some (filter_epg_by_channels root ids (parse_channels_dict root)))

/-- The channel record the output block of one local channel re-parses to:
    the local record untouched, or, when a matching upstream channel passes
    should_update_channel, the upstream header and URL with the extra lines
    taken from the local record unless it has none. -/
def resultChannel (c : Channel) (dc : List Channel) (i : Nat) : Channel :=
  match find_matching_channel c dc with
  | some d =>
    if should_update_channel c d then
      { extinf := d.extinf
        url := d.url
        extras := if c.extras.isEmpty then d.extras else c.extras
        tvg_id := d.tvg_id
        name := d.name
        provider := d.provider
        original_index := i }
    else { c with original_index := i }
  | none => { c with original_index := i }

/-- resultChannel over a whole playlist, numbering from i. -/
def resultChannels (lc dc : List Channel) (i : Nat) : List Channel :=
  match lc with
  | [] => []
  | c :: cs => resultChannel c dc i :: resultChannels cs dc (i + 1)

/-- A line the inner scanning loop stores as an extra: neither a header nor
    a stream URL. -/
structure GoodLine (l : List Char) : Prop where
  not_extinf : lstartsWith (str "#EXTINF") (trim l) = false
  not_http : lstartsWith (str "http://") (trim l) = false
  not_https : lstartsWith (str "https://") (trim l) = false

/-- The invariants every record produced by parse_m3u_playlist satisfies. -/
structure GoodChannel (c : Channel) : Prop where
  extinf_trim : trim c.extinf = c.extinf
  extinf_sw : lstartsWith (str "#EXTINF") c.extinf = true
  url_trim : trim c.url = c.url
  url_not_extinf : lstartsWith (str "#EXTINF") c.url = false
  url_http : (lstartsWith (str "http://") c.url || lstartsWith (str "https://") c.url) = true
  extras_good : ∀ e ∈ c.extras, GoodLine e
  tvg_eq : c.tvg_id = extractTvgId c.extinf
  name_eq : c.name = extractName c.extinf
  prov_eq : c.provider = extract_provider_domain c.url

/-- The invariant of the scanning state. -/
def PendingGood : Option (List Char × List (List Char)) → Prop
  | none => True
  | some (extinf, extras) =>
    trim extinf = extinf ∧ lstartsWith (str "#EXTINF") extinf = true ∧ ∀ e ∈ extras, GoodLine e

/-- The channel records with their sequence positions renumbered from idx,
    as re-parsing assigns them. -/
def reindexFrom (idx : Nat) : List Channel → List Channel
  | [] => []
  | c :: cs => { c with original_index := idx } :: reindexFrom (idx + 1) cs

/-- The concatenated output blocks of a channel list. -/
def blocksOf : List Channel → List (List Char)
  | [] => []
  | c :: cs => channelBlock c ++ blocksOf cs

/-- A descriptor line contains a comma followed by at least one character
    (the condition under which the name regex can match). -/
def commaWithContent : List Char → Bool
  | [] => false
  | c :: rest => (decide (c = ',') && !rest.isEmpty) || commaWithContent rest

/-- Whether an Except result is the ok constructor (a run that did not end
    in the fatal top-level handler). -/
def exceptOk {e a : Type} : Except e a → Bool
  | Except.ok _ => true
  | Except.error _ => false

/-- The invariant of the channel dictionary built from a guide document. -/
def DictInv (root : XmlElem) (dict : EpgDict) : Prop :=
  ∀ p ∈ dict, p.1 ≠ [] ∧ elemTag p.2 = str "channel" ∧
    getAttr p.2 (str "id") = some p.1 ∧ p.2 ∈ findall_desc (str "channel") root

/-! Concrete fixtures used by the witness theorems. -/

/-- A local channel record with tvg-id W and no extra lines. -/
def chA : Channel :=
  { extinf := str "#EXTINF:-1 tvg-id=\"W\",Alpha", url := str "http://a.w.com/1",
    extras := [], tvg_id := some (str "W"), name := str "Alpha",
    provider := str "w.com", original_index := 0 }

/-- An upstream channel with the same tvg-id and provider, another URL and
    one extra line. -/
def chB : Channel :=
  { extinf := str "#EXTINF:-1 tvg-id=\"W\",Alpha HD", url := str "http://b.w.com/2",
    extras := [str "#EXTVLCOPT:http-user-agent=Foo"], tvg_id := some (str "W"),
    name := str "Alpha HD", provider := str "w.com", original_index := 0 }

/-- A local channel whose URL yields the empty provider label. -/
def chEmptyProv : Channel :=
  { extinf := str "#EXTINF:-1 tvg-id=\"Q\",Beta", url := str "http://",
    extras := [], tvg_id := some (str "Q"), name := str "Beta",
    provider := str "", original_index := 0 }

/-- An upstream channel with the same tvg-id and a non-empty provider. -/
def chFullProv : Channel :=
  { extinf := str "#EXTINF:-1 tvg-id=\"Q\",Beta", url := str "http://b.w.com/9",
    extras := [], tvg_id := some (str "Q"), name := str "Beta",
    provider := str "w.com", original_index := 0 }

/-- A channel with no identifier and an empty display name. -/
def chNoKey : Channel :=
  { extinf := str "#EXTINF:-1,", url := str "http://a.w.com/7",
    extras := [], tvg_id := none, name := str "",
    provider := str "w.com", original_index := 0 }

/-- A guide channel element with id ESPN.us. -/
def xmlCh1 : XmlElem := XmlElem.mk (str "channel") [(str "id", str "ESPN.us")] []

/-- A guide channel element with id CNN.us. -/
def xmlCh2 : XmlElem := XmlElem.mk (str "channel") [(str "id", str "CNN.us")] []

/-- A programme element referencing ESPN.us. -/
def xmlPr1 : XmlElem := XmlElem.mk (str "programme") [(str "channel", str "ESPN.us")] []

/-- A programme element referencing CNN.us. -/
def xmlPr2 : XmlElem := XmlElem.mk (str "programme") [(str "channel", str "CNN.us")] []

/-- A small guide document. -/
def xmlRoot : XmlElem :=
  XmlElem.mk (str "tv") [(str "source-info-name", str "drew")] [xmlCh1, xmlCh2, xmlPr1, xmlPr2]

/-! Basic facts about the string helpers. -/

theorem dropWhile_idem (p : Char → Bool) (l : List Char) :
    (l.dropWhile p).dropWhile p = l.dropWhile p := by
  induction l with
  | nil => rfl
  | cons c cs ih =>
    by_cases h : p c = true
    · simp [List.dropWhile_cons, h, ih]
    · simp [List.dropWhile_cons, h]

theorem ltrim_idem (l : List Char) : ltrim (ltrim l) = ltrim l :=
  dropWhile_idem _ l

theorem rtrim_idem (l : List Char) : rtrim (rtrim l) = rtrim l := by
  unfold rtrim
  rw [List.reverse_reverse, ltrim_idem]

theorem ltrim_rtrim (l : List Char) (h : ltrim l = l) : ltrim (rtrim l) = rtrim l := by
  cases l with
  | nil => rfl
  | cons c cs =>
    have hc : isSpaceChar c = false := by
      by_contra hcc
      rw [Bool.not_eq_false] at hcc
      have h2 : ltrim cs = c :: cs := by
        simpa [ltrim, List.dropWhile_cons, hcc] using h
      have h3 := (List.dropWhile_sublist (p := isSpaceChar) (l := cs)).length_le
      rw [show cs.dropWhile isSpaceChar = ltrim cs from rfl, h2] at h3
      simp at h3
    unfold rtrim
    rw [List.reverse_cons]
    rw [show ltrim (cs.reverse ++ [c]) = (cs.reverse ++ [c]).dropWhile isSpaceChar from rfl,
      List.dropWhile_append]
    by_cases he : (cs.reverse.dropWhile isSpaceChar).isEmpty = true
    · rw [if_pos he]
      simp [ltrim, List.dropWhile_cons, hc]
    · rw [if_neg (by simpa using he)]
      rw [List.reverse_append]
      simp [ltrim, List.dropWhile_cons, hc]

theorem trim_trim (l : List Char) : trim (trim l) = trim l := by
  show rtrim (ltrim (rtrim (ltrim l))) = rtrim (ltrim l)
  rw [ltrim_rtrim (ltrim l) (ltrim_idem l), rtrim_idem]

theorem extractName_trim (l : List Char) : trim (extractName l) = extractName l := by
  induction l with
  | nil => rfl
  | cons c cs ih =>
    by_cases h : c = ','
    · by_cases hr : cs = []
      · simp only [extractName, h, hr, if_pos, if_true]
        rfl
      · simp [extractName, h, hr, trim_trim]
    · simp [extractName, h, ih]

theorem matchTvgAt_ne_nil {l s : List Char} (h : matchTvgAt l = some s) : s ≠ [] := by
  unfold matchTvgAt at h
  split at h
  · dsimp only at h
    split at h
    · exact absurd h (by simp)
    · split at h
      · exact absurd h (by simp)
      · rename_i hcap hlen
        cases h
        exact hcap
  · exact absurd h (by simp)

theorem extractTvgId_ne_nil {l s : List Char} (h : extractTvgId l = some s) : s ≠ [] := by
  induction l with
  | nil => simp [extractTvgId] at h
  | cons c cs ih =>
    rw [extractTvgId] at h
    cases hm : matchTvgAt (c :: cs) with
    | some t =>
      rw [hm] at h
      cases h
      exact matchTvgAt_ne_nil hm
    | none =>
      rw [hm] at h
      exact ih h

theorem extinf_ne_nil {x : List Char} (h : lstartsWith (str "#EXTINF") x = true) :
    x ≠ [] := by
  intro hx
  subst hx
  exact absurd h (by decide)

theorem extinf_ne_m3u {x : List Char} (h : lstartsWith (str "#EXTINF") x = true) :
    x ≠ str "#EXTM3U" := by
  intro hx
  subst hx
  exact absurd h (by decide)

/-! The invariants of parse_m3u_playlist output. -/

theorem parse_aux_good :
    ∀ (lines : List (List Char)) (pend : Option (List Char × List (List Char))) (idx : Nat),
      PendingGood pend → ∀ c ∈ parse_aux lines pend idx, GoodChannel c := by
  intro lines
  induction lines with
  | nil =>
    intro pend idx _ c hc
    cases pend with
    | none => simp [parse_aux] at hc
    | some p => cases p; simp [parse_aux] at hc
  | cons l rest ih =>
    intro pend idx hp c hc
    cases pend with
    | none =>
      rw [parse_aux] at hc
      split at hc
      · exact ih none idx trivial c hc
      · split at hc
        · rename_i hempty hsw
          exact ih (some (trim l, [])) idx ⟨trim_trim l, hsw, by simp⟩ c hc
        · exact ih none idx trivial c hc
    | some p =>
      obtain ⟨extinf, extras⟩ := p
      obtain ⟨he1, he2, he3⟩ := hp
      rw [parse_aux] at hc
      split at hc
      · rename_i hsw
        exact ih (some (trim l, [])) idx ⟨trim_trim l, hsw, by simp⟩ c hc
      · split at hc
        · rename_i hsw hurl
          rcases List.mem_cons.mp hc with hceq | hmem
          · subst hceq
            refine ⟨he1, he2, trim_trim l, ?_, hurl, he3, rfl, rfl, rfl⟩
            simpa using hsw
          · exact ih none (idx + 1) trivial c hmem
        · rename_i hsw hurl
          refine ih (some (extinf, extras ++ [l])) idx ⟨he1, he2, ?_⟩ c hc
          intro e he
          rcases List.mem_append.mp he with h1 | h2
          · exact he3 e h1
          · rw [List.mem_singleton] at h2
            subst h2
            have hsw' : lstartsWith (str "#EXTINF") (trim e) = false := by
              simpa using hsw
            have hurl' := hurl
            rw [Bool.or_eq_true, not_or] at hurl'
            exact ⟨hsw', by simpa using hurl'.1, by simpa using hurl'.2⟩

theorem parse_good (lines : List (List Char)) :
    ∀ c ∈ parse_m3u_playlist lines, GoodChannel c :=
  parse_aux_good lines none 0 trivial

/-! Re-parsing the serialized output. -/

theorem parse_aux_pending_run (url : List Char)
    (hu_trim : trim url = url)
    (hu_ne : lstartsWith (str "#EXTINF") url = false)
    (hu_http : (lstartsWith (str "http://") url || lstartsWith (str "https://") url) = true) :
    ∀ (extras : List (List Char)), (∀ e ∈ extras, GoodLine e) →
      ∀ (acc : List (List Char)) (extinf : List Char) (rest : List (List Char)) (idx : Nat),
        parse_aux (extras ++ url :: rest) (some (extinf, acc)) idx
          = mkChannel extinf url (acc ++ extras) idx :: parse_aux rest none (idx + 1) := by
  intro extras
  induction extras with
  | nil =>
    intro _ acc extinf rest idx
    rw [List.nil_append, parse_aux, hu_trim]
    rw [if_neg (by simp [hu_ne]), if_pos hu_http, List.append_nil]
  | cons e es ih =>
    intro hgood acc extinf rest idx
    have hge : GoodLine e := hgood e (by simp)
    rw [List.cons_append, parse_aux]
    rw [if_neg (by simp [hge.not_extinf]),
      if_neg (by simp [hge.not_http, hge.not_https])]
    rw [ih (fun x hx => hgood x (by simp [hx])) (acc ++ [e]) extinf rest idx]
    simp

theorem parse_aux_blocks :
    ∀ (chs : List Channel), (∀ c ∈ chs, GoodChannel c) →
      ∀ idx, parse_aux (blocksOf chs) none idx = reindexFrom idx chs := by
  intro chs
  induction chs with
  | nil => intro _ idx; rfl
  | cons c cs ih =>
    intro hgood idx
    have hg : GoodChannel c := hgood c (by simp)
    have hblock : blocksOf (c :: cs) = c.extinf :: (c.extras ++ c.url :: blocksOf cs) := by
      simp [blocksOf, channelBlock]
    rw [hblock, parse_aux, hg.extinf_trim]
    rw [if_neg (by
      rintro (h1 | h2)
      · exact extinf_ne_nil hg.extinf_sw h1
      · exact extinf_ne_m3u hg.extinf_sw h2)]
    rw [if_pos hg.extinf_sw]
    rw [parse_aux_pending_run c.url hg.url_trim hg.url_not_extinf hg.url_http
      c.extras hg.extras_good [] c.extinf (blocksOf cs) idx]
    rw [ih (fun x hx => hgood x (by simp [hx])) (idx + 1)]
    have hmk : mkChannel c.extinf c.url ([] ++ c.extras) idx = { c with original_index := idx } := by
      obtain ⟨e, u, ex, t, n, p, i⟩ := c
      have ht := hg.tvg_eq
      have hn := hg.name_eq
      have hp := hg.prov_eq
      simp only at ht hn hp
      simp [mkChannel, ht, hn, hp]
    rw [hmk, reindexFrom]

/-! The output shape of update_playlist. -/

theorem channelLines_fst (c : Channel) (dc : List Channel) (i : Nat) :
    (channelLines c dc).1 = channelBlock (resultChannel c dc i) := by
  unfold channelLines resultChannel
  cases hm : find_matching_channel c dc with
  | none => rfl
  | some d =>
    by_cases hs : should_update_channel c d = true
    · simp [hs, channelBlock]
    · simp [hs, channelBlock]

theorem resultChannel_index (c : Channel) (dc : List Channel) (i : Nat) :
    (resultChannel c dc i).original_index = i := by
  unfold resultChannel
  cases hm : find_matching_channel c dc with
  | none => rfl
  | some d =>
    by_cases hs : should_update_channel c d = true
    · simp [hs]
    · simp [hs]

theorem reindexFrom_self :
    ∀ (chs : List Channel) (idx : Nat), (∀ i c, chs[i]? = some c →
      c.original_index = idx + i) → reindexFrom idx chs = chs := by
  intro chs
  induction chs with
  | nil => intro idx _; rfl
  | cons c cs ih =>
    intro idx h
    have hc : c.original_index = idx := by simpa using h 0 c (by simp)
    have hcc : { c with original_index := idx } = c := by
      obtain ⟨e, u, ex, t, n, p, i⟩ := c
      simp only at hc
      simp [hc]
    rw [reindexFrom, hcc, ih (idx + 1) ?_]
    intro i x hx
    have := h (i + 1) x (by simpa using hx)
    omega

theorem resultChannels_getElem? :
    ∀ (lc : List Channel) (dc : List Channel) (idx i : Nat) (c : Channel),
      (resultChannels lc dc idx)[i]? = some c → c.original_index = idx + i := by
  intro lc
  induction lc with
  | nil => intro dc idx i c h; simp [resultChannels] at h
  | cons x xs ih =>
    intro dc idx i c h
    cases i with
    | zero =>
      rw [resultChannels] at h
      simp at h
      rw [← h, resultChannel_index]
      omega
    | succ j =>
      rw [resultChannels] at h
      simp at h
      have := ih dc (idx + 1) j c h
      omega

theorem idMatch_mem {c d : Channel} {dc : List Channel}
    (h : idMatch c dc = some d) : d ∈ dc := by
  unfold idMatch at h
  split at h
  · exact List.mem_of_find?_eq_some h
  · exact absurd h (by simp)

theorem nameMatch_mem {c d : Channel} {dc : List Channel}
    (h : nameMatch c dc = some d) : d ∈ dc := by
  unfold nameMatch at h
  split at h
  · exact absurd h (by simp)
  · exact List.mem_of_find?_eq_some h

theorem find_matching_mem {c d : Channel} {dc : List Channel}
    (h : find_matching_channel c dc = some d) : d ∈ dc := by
  unfold find_matching_channel at h
  cases hm : idMatch c dc with
  | some x =>
    rw [hm] at h
    injection h with h2
    subst h2
    exact idMatch_mem hm
  | none =>
    rw [hm] at h
    exact nameMatch_mem h

theorem resultChannel_good {c : Channel} {dc : List Channel}
    (hc : GoodChannel c) (hdc : ∀ d ∈ dc, GoodChannel d) (i : Nat) :
    GoodChannel (resultChannel c dc i) := by
  unfold resultChannel
  cases hm : find_matching_channel c dc with
  | none =>
    exact ⟨hc.extinf_trim, hc.extinf_sw, hc.url_trim, hc.url_not_extinf, hc.url_http,
      hc.extras_good, hc.tvg_eq, hc.name_eq, hc.prov_eq⟩
  | some d =>
    have hd : GoodChannel d := hdc d (find_matching_mem hm)
    dsimp only
    by_cases hs : should_update_channel c d = true
    · rw [if_pos hs]
      refine ⟨hd.extinf_trim, hd.extinf_sw, hd.url_trim, hd.url_not_extinf, hd.url_http,
        ?_, hd.tvg_eq, hd.name_eq, hd.prov_eq⟩
      intro e he
      by_cases hex : c.extras.isEmpty = true
      · rw [if_pos hex] at he
        exact hd.extras_good e he
      · rw [if_neg hex] at he
        exact hc.extras_good e he
    · rw [if_neg hs]
      exact ⟨hc.extinf_trim, hc.extinf_sw, hc.url_trim, hc.url_not_extinf, hc.url_http,
        hc.extras_good, hc.tvg_eq, hc.name_eq, hc.prov_eq⟩

theorem updateBody_fst (dc : List Channel) :
    ∀ (lc : List Channel) (i : Nat), (updateBody dc lc).1 = blocksOf (resultChannels lc dc i) := by
  intro lc
  induction lc with
  | nil => intro i; rfl
  | cons c cs ih =>
    intro i
    rw [updateBody, resultChannels, blocksOf]
    dsimp only
    rw [channelLines_fst c dc i, ih (i + 1)]

theorem resultChannels_length :
    ∀ (lc dc : List Channel) (i : Nat), (resultChannels lc dc i).length = lc.length := by
  intro lc
  induction lc with
  | nil => intro dc i; rfl
  | cons c cs ih => intro dc i; rw [resultChannels]; simp [ih]

theorem resultChannels_good :
    ∀ (lc : List Channel) (dc : List Channel) (i : Nat),
      (∀ c ∈ lc, GoodChannel c) → (∀ d ∈ dc, GoodChannel d) →
      ∀ c ∈ resultChannels lc dc i, GoodChannel c := by
  intro lc
  induction lc with
  | nil => intro dc i _ _ c hc; simp [resultChannels] at hc
  | cons x xs ih =>
    intro dc i hlc hdc c hc
    rw [resultChannels] at hc
    rcases List.mem_cons.mp hc with hceq | hmem
    · subst hceq
      exact resultChannel_good (hlc x (by simp)) hdc i
    · exact ih dc (i + 1) (fun y hy => hlc y (by simp [hy])) hdc c hmem

/-- Re-parsing the update_playlist output yields exactly the resultChannel
    image of the local channel list. -/
theorem parse_update_roundtrip (lc dc : List Channel)
    (hlc : ∀ c ∈ lc, GoodChannel c) (hdc : ∀ d ∈ dc, GoodChannel d) :
    parse_m3u_playlist (update_playlist lc dc).1 = resultChannels lc dc 0 := by
  unfold parse_m3u_playlist update_playlist
  dsimp only
  rw [parse_aux]
  rw [if_pos (by right; decide)]
  rw [updateBody_fst dc lc 0]
  rw [parse_aux_blocks (resultChannels lc dc 0)
    (resultChannels_good lc dc 0 hlc hdc) 0]
  exact reindexFrom_self (resultChannels lc dc 0) 0
    (fun i c h => by simpa using resultChannels_getElem? lc dc 0 i c h)

/-! The decisions of find_matching_channel and should_update_channel. -/

theorem idMatch_some_elim {c d : Channel} {dc : List Channel}
    (h : idMatch c dc = some d) :
    optTruthy c.tvg_id = true ∧ d.tvg_id = c.tvg_id := by
  unfold idMatch at h
  split at h
  · rename_i hguard
    have hp := List.find?_some h
    simp at hp
    exact ⟨hguard, hp⟩
  · exact absurd h (by simp)

theorem nameMatch_some_elim {c d : Channel} {dc : List Channel}
    (h : nameMatch c dc = some d) :
    c.name ≠ [] ∧ nameKey d.name = nameKey c.name ∧
      dc.find? (fun x => decide (nameKey x.name = nameKey c.name)) = some d := by
  unfold nameMatch at h
  split at h
  · exact absurd h (by simp)
  · rename_i hguard
    have hp := List.find?_some h
    simp at hp
    exact ⟨hguard, hp, h⟩

theorem find_matching_cases {c d : Channel} {dc : List Channel}
    (h : find_matching_channel c dc = some d) :
    idMatch c dc = some d ∨ (idMatch c dc = none ∧ nameMatch c dc = some d) := by
  unfold find_matching_channel at h
  cases hm : idMatch c dc with
  | some x =>
    rw [hm] at h
    exact Or.inl h
  | none =>
    rw [hm] at h
    exact Or.inr ⟨rfl, h⟩

theorem channelLines_irrel (c : Channel) (dc : List Channel) (i : Nat) :
    channelLines { c with original_index := i } dc = channelLines c dc := rfl

/-! A second reconciliation pass over the output leaves everything alone,
    provided distinct upstream channels never share a non-empty tvg-id. -/

theorem nameKey_ne_nil {c : Channel} (hc : GoodChannel c) (h : c.name ≠ []) :
    nameKey c.name ≠ [] := by
  have ht : trim c.name = c.name := by
    rw [hc.name_eq]
    exact extractName_trim _
  unfold nameKey
  rw [ht]
  unfold lowerList
  simpa using h

theorem second_run_zero (c : Channel) (dc : List Channel)
    (hc : GoodChannel c)
    (hnodup : ∀ d1 ∈ dc, ∀ d2 ∈ dc, d1.tvg_id = d2.tvg_id → d1.tvg_id ≠ none → d1 = d2)
    (i : Nat) :
    channelLines (resultChannel c dc i) dc = (channelBlock (resultChannel c dc i), 0) := by
  unfold resultChannel
  cases hm : find_matching_channel c dc with
  | none =>
    dsimp only
    rw [channelLines_irrel]
    unfold channelLines
    rw [hm]
    rfl
  | some d =>
    dsimp only
    by_cases hs : should_update_channel c d = true
    · rw [if_pos hs]
      set r : Channel :=
        { extinf := d.extinf, url := d.url,
          extras := if c.extras.isEmpty = true then d.extras else c.extras,
          tvg_id := d.tvg_id, name := d.name, provider := d.provider,
          original_index := i } with hr
      have hmem : d ∈ dc := find_matching_mem hm
      have hsu : should_update_channel r d = false := by
        unfold should_update_channel
        simp [hr]
      have hfind : find_matching_channel r dc = some d := by
        by_cases hod : optTruthy d.tvg_id = true
        · -- the updated record carries the upstream tvg-id; the nodup
          -- hypothesis forces the identifier search to return d itself
          obtain ⟨t, hts⟩ : ∃ t, d.tvg_id = some t := by
            cases hdt : d.tvg_id with
            | none => rw [hdt] at hod; exact absurd hod (by simp [optTruthy])
            | some t => exact ⟨t, rfl⟩
          have hid : idMatch r dc = dc.find? (fun x => decide (x.tvg_id = d.tvg_id)) := by
            unfold idMatch
            rw [if_pos (by simpa [hr] using hod)]
          have hsome : (dc.find? (fun x => decide (x.tvg_id = d.tvg_id))).isSome := by
            rw [List.find?_isSome]
            exact ⟨d, hmem, by simp⟩
          obtain ⟨d1, hd1⟩ := Option.isSome_iff_exists.mp hsome
          have hd1p : d1.tvg_id = d.tvg_id := by
            have := List.find?_some hd1
            simpa using this
          have hd1d : d1 = d :=
            hnodup d1 (List.mem_of_find?_eq_some hd1) d hmem hd1p
              (by rw [hd1p, hts]; simp)
          unfold find_matching_channel
          rw [hid, hd1, hd1d]
        · -- the first pass matched by display name; so does the second
          rcases find_matching_cases hm with hi | ⟨hi, hn⟩
          · have := (idMatch_some_elim hi).2
            have hoc := (idMatch_some_elim hi).1
            rw [this] at hod
            exact absurd hoc hod
          · obtain ⟨hcn, hkey, hfind1⟩ := nameMatch_some_elim hn
            have hdn : d.name ≠ [] := by
              intro hnil
              have h1 : nameKey c.name ≠ [] := nameKey_ne_nil hc hcn
              rw [← hkey, hnil] at h1
              exact h1 rfl
            have hidr : idMatch r dc = none := by
              unfold idMatch
              rw [if_neg]
              simpa [hr] using hod
            unfold find_matching_channel
            rw [hidr]
            unfold nameMatch
            rw [if_neg (by simpa [hr] using hdn)]
            have hfun : (fun x : Channel => decide (nameKey x.name = nameKey r.name))
                = (fun x : Channel => decide (nameKey x.name = nameKey c.name)) := by
              funext x
              rw [show nameKey r.name = nameKey c.name by rw [hr]; exact hkey]
            rw [hfun, hfind1]
      unfold channelLines
      rw [hfind]
      dsimp only
      rw [hsu]
      simp
    · rw [if_neg hs]
      rw [channelLines_irrel]
      unfold channelLines
      rw [hm]
      dsimp only
      rw [if_neg hs]
      rfl

theorem updateBody_second_run (dc : List Channel)
    (hnodup : ∀ d1 ∈ dc, ∀ d2 ∈ dc, d1.tvg_id = d2.tvg_id → d1.tvg_id ≠ none → d1 = d2) :
    ∀ (lc : List Channel), (∀ c ∈ lc, GoodChannel c) → ∀ i,
      updateBody dc (resultChannels lc dc i) = (blocksOf (resultChannels lc dc i), 0) := by
  intro lc
  induction lc with
  | nil => intro _ i; rfl
  | cons c cs ih =>
    intro hlc i
    rw [resultChannels, updateBody, blocksOf]
    rw [second_run_zero c dc (hlc c (by simp)) hnodup i,
      ih (fun x hx => hlc x (by simp [hx])) (i + 1)]
    rfl

theorem commaWithContent_extractName {l : List Char}
    (h : commaWithContent l = false) : extractName l = [] := by
  induction l with
  | nil => rfl
  | cons c cs ih =>
    rw [commaWithContent] at h
    rw [Bool.or_eq_false_iff, Bool.and_eq_false_iff] at h
    by_cases hc : c = ','
    · have hcs : cs = [] := by
        rcases h.1 with h1 | h1
        · simp [hc] at h1
        · simpa using h1
      simp [extractName, hc, hcs]
    · simp [extractName, hc, ih h.2]

/-! Claim C1. -/

/-- C1: the claim states every output channel keeps the identifier and
    display name of the corresponding local channel and that only the header
    and url fields may change.  On this input the display name of the
    replaced channel changes from ESPN to ESPN HD and its extra lines are taken from the
    upstream record, refuting both parts. -/
theorem C1_counterexample :
    (parse_m3u_playlist (update_playlist
        (parse_m3u_playlist [str "#EXTINF:-1 tvg-id=\"X\",ESPN", str "http://a.ex.com/1"])
        (parse_m3u_playlist [str "#EXTINF:-1 tvg-id=\"X\",ESPN HD", str "#EXTVLCOPT:ua",
          str "http://b.ex.com/2"])).1).map Channel.name = [str "ESPN HD"]
    ∧ (parse_m3u_playlist [str "#EXTINF:-1 tvg-id=\"X\",ESPN", str "http://a.ex.com/1"]).map
        Channel.name = [str "ESPN"]
    ∧ (parse_m3u_playlist (update_playlist
        (parse_m3u_playlist [str "#EXTINF:-1 tvg-id=\"X\",ESPN", str "http://a.ex.com/1"])
        (parse_m3u_playlist [str "#EXTINF:-1 tvg-id=\"X\",ESPN HD", str "#EXTVLCOPT:ua",
          str "http://b.ex.com/2"])).1).map Channel.extras = [[str "#EXTVLCOPT:ua"]]
    ∧ (parse_m3u_playlist [str "#EXTINF:-1 tvg-id=\"X\",ESPN", str "http://a.ex.com/1"]).map
        Channel.extras = [[]]
    ∧ str "ESPN HD" ≠ str "ESPN" := by decide

/-- C1 (amended): re-parsing the output of update_playlist yields exactly
    one record per local record, in the same order (hence equal length and
    no upstream-only channel ever appears); each output record is the local
    one unchanged, except that when a matching upstream channel passes the
    provider/URL gate the header and url (and the extra lines, when the
    local record has none) are those of the matched upstream record, so the
    identifier and display name embedded in the header may change with it. -/
theorem C1_corrected (L D : List (List Char)) :
    parse_m3u_playlist (update_playlist (parse_m3u_playlist L) (parse_m3u_playlist D)).1
      = resultChannels (parse_m3u_playlist L) (parse_m3u_playlist D) 0
    ∧ (parse_m3u_playlist (update_playlist (parse_m3u_playlist L) (parse_m3u_playlist D)).1).length
      = (parse_m3u_playlist L).length := by
  refine ⟨parse_update_roundtrip _ _ (parse_good L) (parse_good D), ?_⟩
  rw [parse_update_roundtrip _ _ (parse_good L) (parse_good D)]
  exact resultChannels_length _ _ 0

/-! Claim C2. -/

/-- C2: for a local channel that resolves to a matching upstream channel,
    the replacement is applied (counting 1) iff the provider labels of the
    two URLs are equal and the URL strings differ; on provider mismatch, or
    when the matched URL equals the local one, the local block is emitted
    unchanged and the channel contributes 0. -/
theorem C2_confirmed (c d : Channel) (dc : List Channel)
    (hcp : c.provider = extract_provider_domain c.url)
    (hdp : d.provider = extract_provider_domain d.url)
    (hm : find_matching_channel c dc = some d) :
    ((channelLines c dc).2
        = if extract_provider_domain c.url = extract_provider_domain d.url ∧ c.url ≠ d.url
          then 1 else 0)
    ∧ (extract_provider_domain c.url ≠ extract_provider_domain d.url →
        channelLines c dc = (channelBlock c, 0))
    ∧ (d.url = c.url → channelLines c dc = (channelBlock c, 0)) := by
  have hsu : should_update_channel c d = true
      ↔ (extract_provider_domain c.url = extract_provider_domain d.url ∧ c.url ≠ d.url) := by
    unfold should_update_channel
    rw [← hcp, ← hdp]
    by_cases h1 : c.provider = d.provider
    · by_cases h2 : c.url = d.url <;> simp [h1, h2]
    · simp [h1]
  unfold channelLines
  rw [hm]
  dsimp only
  refine ⟨?_, ?_, ?_⟩
  · by_cases hs : should_update_channel c d = true
    · rw [if_pos hs, if_pos (hsu.mp hs)]
    · rw [if_neg hs, if_neg (fun hp => hs (hsu.mpr hp))]
  · intro hne
    rw [if_neg (fun hs => hne (hsu.mp hs).1)]
  · intro hu
    rw [if_neg (fun hs => (hsu.mp hs).2 hu.symm)]

/-- C2 witness: the theorem instantiated at records matched by tvg-id with
    equal providers and different URLs. -/
theorem C2_confirmed_witness :
    ((channelLines chA [chB]).2
        = if extract_provider_domain chA.url = extract_provider_domain chB.url ∧ chA.url ≠ chB.url
          then 1 else 0)
    ∧ (extract_provider_domain chA.url ≠ extract_provider_domain chB.url →
        channelLines chA [chB] = (channelBlock chA, 0))
    ∧ (chB.url = chA.url → channelLines chA [chB] = (channelBlock chA, 0)) :=
  C2_confirmed chA chB [chB] (by decide) (by decide) (by decide)

/-! Claim C3. -/

/-- C3: the claim says a second reconciliation of the output against the
    same upstream always reports zero updates.  With two upstream channels
    sharing tvg-id T, a local channel matched by name to the second takes
    its header; the second run then matches the first upstream channel by
    identifier and updates again, reporting updated_count 1. -/
theorem C3_counterexample :
    (update_playlist
      (parse_m3u_playlist (update_playlist
        (parse_m3u_playlist [str "#EXTINF:-1,News", str "http://x.ex.com/a"])
        (parse_m3u_playlist [str "#EXTINF:-1 tvg-id=\"T\",Other", str "http://x.ex.com/1",
          str "#EXTINF:-1 tvg-id=\"T\",News", str "http://x.ex.com/2"])).1)
      (parse_m3u_playlist [str "#EXTINF:-1 tvg-id=\"T\",Other", str "http://x.ex.com/1",
        str "#EXTINF:-1 tvg-id=\"T\",News", str "http://x.ex.com/2"])).2 = 1 := by decide

/-- C3 (amended): provided no two upstream records carry an equal non-None
    identifier, re-parsing the output and reconciling it against the same
    upstream returns the very same lines with updated_count 0. -/
theorem C3_corrected (L D : List (List Char))
    (hnodup : ∀ d1 ∈ parse_m3u_playlist D, ∀ d2 ∈ parse_m3u_playlist D,
      d1.tvg_id = d2.tvg_id → d1.tvg_id ≠ none → d1 = d2) :
    update_playlist
        (parse_m3u_playlist (update_playlist (parse_m3u_playlist L) (parse_m3u_playlist D)).1)
        (parse_m3u_playlist D)
      = ((update_playlist (parse_m3u_playlist L) (parse_m3u_playlist D)).1, 0) := by
  rw [parse_update_roundtrip _ _ (parse_good L) (parse_good D)]
  unfold update_playlist
  rw [updateBody_second_run (parse_m3u_playlist D) hnodup (parse_m3u_playlist L) (parse_good L) 0]
  rw [updateBody_fst (parse_m3u_playlist D) (parse_m3u_playlist L) 0]

/-- C3 witness at a duplicate-free upstream playlist. -/
theorem C3_corrected_witness :
    update_playlist
        (parse_m3u_playlist (update_playlist
          (parse_m3u_playlist [str "#EXTINF:-1 tvg-id=\"X\",ESPN", str "http://a.ex.com/1"])
          (parse_m3u_playlist [str "#EXTINF:-1 tvg-id=\"X\",ESPN HD", str "http://b.ex.com/2"])).1)
        (parse_m3u_playlist [str "#EXTINF:-1 tvg-id=\"X\",ESPN HD", str "http://b.ex.com/2"])
      = ((update_playlist
          (parse_m3u_playlist [str "#EXTINF:-1 tvg-id=\"X\",ESPN", str "http://a.ex.com/1"])
          (parse_m3u_playlist [str "#EXTINF:-1 tvg-id=\"X\",ESPN HD", str "http://b.ex.com/2"])).1,
        0) :=
  C3_corrected _ _ (by decide)

/-! Claim C4. -/

/-- C4: the claim says a non-empty local identifier decides matching alone.
    Here the local channel has tvg-id X, no upstream channel carries X, and
    a match is still produced - by the display-name fallback. -/
theorem C4_counterexample :
    (parse_m3u_playlist [str "#EXTINF:-1 tvg-id=\"X\",ESPN", str "http://a.ex.com/1"]).map
        (fun c => optTruthy c.tvg_id) = [true]
    ∧ (parse_m3u_playlist [str "#EXTINF:-1 tvg-id=\"X\",ESPN", str "http://a.ex.com/1"]).map
        (fun c => idMatch c (parse_m3u_playlist
          [str "#EXTINF:-1 tvg-id=\"Y\",ESPN", str "http://a.ex.com/2"])) = [none]
    ∧ (parse_m3u_playlist [str "#EXTINF:-1 tvg-id=\"X\",ESPN", str "http://a.ex.com/1"]).map
        (fun c => (find_matching_channel c (parse_m3u_playlist
          [str "#EXTINF:-1 tvg-id=\"Y\",ESPN", str "http://a.ex.com/2"])).isSome) = [true] := by
  decide

/-- C4 (amended): when the local identifier is non-empty and some upstream
    channel carries an equal identifier (case-sensitively), the first such
    entry decides the match; when no upstream channel carries it, matching
    falls back to the lower-cased trimmed display-name comparison even
    though the identifier is non-empty. -/
theorem C4_corrected (c : Channel) (dc : List Channel)
    (ht : optTruthy c.tvg_id = true) :
    ((∃ d ∈ dc, d.tvg_id = c.tvg_id) →
      find_matching_channel c dc = dc.find? (fun d => decide (d.tvg_id = c.tvg_id)))
    ∧ ((∀ d ∈ dc, d.tvg_id ≠ c.tvg_id) → find_matching_channel c dc = nameMatch c dc) := by
  constructor
  · rintro ⟨d, hd, hdt⟩
    have hsome : (dc.find? (fun x => decide (x.tvg_id = c.tvg_id))).isSome := by
      rw [List.find?_isSome]
      exact ⟨d, hd, by simp [hdt]⟩
    obtain ⟨x, hx⟩ := Option.isSome_iff_exists.mp hsome
    unfold find_matching_channel idMatch
    rw [if_pos ht, hx]
  · intro hnone
    have hid : idMatch c dc = none := by
      unfold idMatch
      rw [if_pos ht, List.find?_eq_none]
      intro x hx
      simp [hnone x hx]
    unfold find_matching_channel
    rw [hid]

/-- C4 witness: the identifier-present branch and the fallback branch at
    concrete channels. -/
theorem C4_corrected_witness :
    ((∃ d ∈ [chB], d.tvg_id = chA.tvg_id) →
      find_matching_channel chA [chB] = [chB].find? (fun d => decide (d.tvg_id = chA.tvg_id)))
    ∧ ((∀ d ∈ [chB], d.tvg_id ≠ chA.tvg_id) →
        find_matching_channel chA [chB] = nameMatch chA [chB]) :=
  C4_corrected chA [chB] (by decide)

/-! Claim C6. -/

/-- C6: two URLs from which no host can be derived both yield the empty
    provider label; the two empty labels compare equal and the channel is
    auto-updated, refuting "the empty label never compares equal to any
    provider label" and "never auto-updated". -/
theorem C6_counterexample :
    urlHostname (str "http:///stream1") = []
    ∧ extract_provider_domain (str "http:///stream1") = []
    ∧ extract_provider_domain (str "http:///stream1")
        = extract_provider_domain (str "http:///stream2")
    ∧ (update_playlist
        (parse_m3u_playlist [str "#EXTINF:-1 tvg-id=\"A\",Ch", str "http:///stream1"])
        (parse_m3u_playlist [str "#EXTINF:-1 tvg-id=\"A\",Ch", str "http:///stream2"])).2
      = 1 := by decide

/-- C6 (amended): a URL with no derivable host yields the empty provider
    label, and the empty label differs from every non-empty label, so a
    matched channel whose local URL yields the empty label is never updated
    to an upstream URL whose label is non-empty; it can still be updated
    when the upstream label is empty as well. -/
theorem C6_corrected :
    (∀ url : List Char, urlHostname url = [] → extract_provider_domain url = [])
    ∧ (∀ (c d : Channel) (dc : List Channel),
        c.provider = extract_provider_domain c.url →
        extract_provider_domain c.url = [] →
        d.provider ≠ [] →
        find_matching_channel c dc = some d →
        channelLines c dc = (channelBlock c, 0)) := by
  constructor
  · intro url h
    unfold extract_provider_domain
    rw [h]
    rfl
  · intro c d dc hcp hce hd hm
    have hne : c.provider ≠ d.provider := by
      rw [hcp, hce]
      exact fun hh => hd hh.symm
    have hs : should_update_channel c d = false := by
      unfold should_update_channel
      rw [if_pos hne]
    unfold channelLines
    rw [hm]
    dsimp only
    rw [hs]
    simp

/-- C6 witness: the empty-label lemma at http:// and the no-update half at a
    matched pair with empty local label and non-empty upstream label. -/
theorem C6_corrected_witness :
    extract_provider_domain (str "http://") = []
    ∧ channelLines chEmptyProv [chFullProv] = (channelBlock chEmptyProv, 0) :=
  ⟨C6_corrected.1 (str "http://") (by decide),
   C6_corrected.2 chEmptyProv chFullProv [chFullProv] (by decide) (by decide) (by decide)
     (by decide)⟩

/-! Claim C7. -/

/-- C7: save_playlist leaves the persisted content untouched and reports no
    write for the empty list and for the header-only list; every list of at
    least two lines is written. -/
theorem C7_confirmed :
    (∀ existing, save_playlist [] existing = (existing, false))
    ∧ (∀ existing, save_playlist [str "#EXTM3U"] existing = (existing, false))
    ∧ (∀ lines existing, 2 ≤ lines.length →
        save_playlist lines existing = (some (joinNewline lines ++ ['\n']), true)) := by
  refine ⟨fun e => rfl, fun e => rfl, fun lines e h => ?_⟩
  unfold save_playlist
  rw [if_neg (by omega)]

/-- C7 witness: a three-line playlist is written. -/
theorem C7_confirmed_witness :
    save_playlist [str "#EXTM3U", str "#EXTINF:-1,A", str "http://a.w.com/1"] (some (str "old"))
      = (some (joinNewline [str "#EXTM3U", str "#EXTINF:-1,A", str "http://a.w.com/1"] ++ ['\n']),
        true) :=
  C7_confirmed.2.2 _ _ (by decide)

/-! Claim C9. -/

/-- C9: the claim says a descriptor line with no content after the final
    comma parses to an empty display name and such a channel is never
    matched nor updated.  This line ends in a comma, yet parses to display
    name "abc," (the regex captures after the first comma), and the channel
    is matched by tvg-id and updated. -/
theorem C9_counterexample :
    (parse_m3u_playlist [str "#EXTINF:-1 tvg-id=\"X\",abc,", str "http://h.ex.com/1"]).map
        Channel.name = [str "abc,"]
    ∧ (update_playlist
        (parse_m3u_playlist [str "#EXTINF:-1 tvg-id=\"X\",abc,", str "http://h.ex.com/1"])
        (parse_m3u_playlist [str "#EXTINF:-1 tvg-id=\"X\",zzz", str "http://h.ex.com/2"])).2
      = 1 := by decide

/-- C9 (amended): a descriptor line with no comma followed by content parses
    to an empty display_name; a channel whose display name is empty and
    whose identifier is empty or absent is never matched, and its block
    passes through unchanged contributing 0. -/
theorem C9_corrected :
    (∀ l : List Char, commaWithContent l = false → extractName l = [])
    ∧ (∀ (c : Channel) (dc : List Channel), c.name = [] → optTruthy c.tvg_id = false →
        find_matching_channel c dc = none ∧ channelLines c dc = (channelBlock c, 0)) := by
  constructor
  · exact fun l h => commaWithContent_extractName h
  · intro c dc hn ht
    have hid : idMatch c dc = none := by
      unfold idMatch
      simp [ht]
    have hnm : nameMatch c dc = none := by
      unfold nameMatch
      rw [if_pos hn]
    have hfm : find_matching_channel c dc = none := by
      unfold find_matching_channel
      rw [hid]
      exact hnm
    refine ⟨hfm, ?_⟩
    unfold channelLines
    rw [hfm]

/-- C9 witness: a commaless descriptor and a keyless channel that passes
    through. -/
theorem C9_corrected_witness :
    extractName (str "#EXTINF:-1") = []
    ∧ find_matching_channel chNoKey [chB] = none
    ∧ channelLines chNoKey [chB] = (channelBlock chNoKey, 0) :=
  ⟨C9_corrected.1 _ (by decide),
   (C9_corrected.2 chNoKey [chB] (by decide) (by decide)).1,
   (C9_corrected.2 chNoKey [chB] (by decide) (by decide)).2⟩

/-! Claim C10. -/

/-- C10: on a replacement the emitted extra lines are those of the local
    record when that list is non-empty, and of the upstream record otherwise (and
    nothing when both are empty, the append of the empty list). -/
theorem C10_confirmed (c d : Channel) (dc : List Channel)
    (hm : find_matching_channel c dc = some d)
    (hs : should_update_channel c d = true) :
    update_playlist [c] dc
      = (str "#EXTM3U" :: d.extinf ::
          ((if c.extras.isEmpty then d.extras else c.extras) ++ [d.url]), 1) := by
  have h1 : channelLines c dc
      = (d.extinf :: ((if c.extras.isEmpty then d.extras else c.extras) ++ [d.url]), 1) := by
    unfold channelLines
    rw [hm]
    dsimp only
    rw [if_pos hs]
  unfold update_playlist updateBody
  rw [h1]
  simp [updateBody]

/-- C10 witness: the local record has no extra lines, so the upstream
    record contributes its extra line to the output. -/
theorem C10_confirmed_witness :
    update_playlist [chA] [chB]
      = (str "#EXTM3U" :: chB.extinf ::
          ((if chA.extras.isEmpty then chB.extras else chA.extras) ++ [chB.url]), 1) :=
  C10_confirmed chA chB [chB] (by decide) (by decide)

/-! Claim C5. -/

/-- C5: the claim says a playlist fetch failure is recovered locally with
    zero upstream channels and the run is not fatal; in the model of main
    the fetch error propagates to the top-level handler and the run ends in
    the error result instead of an ok one. -/
theorem C5_counterexample :
    exceptOk (runMain (Except.error (str "connection refused"))
        [str "#EXTM3U", str "#EXTINF:-1 tvg-id=\"A\",A", str "http://a.ex.com/1"] none none)
      = false := by decide

/-- C5 (amended): a playlist fetch failure propagates unchanged - the
    __main__ handler reports it and exits non-zero, producing no output;
    an EPG fetch failure, by contrast, is recovered: the run completes with
    epg_updated false and the playlist reconciled and saved as usual. -/
theorem C5_corrected :
    (∀ (e : List Char) (L : List (List Char)) (s : Option (List Char)) (g : Option XmlElem),
      runMain (Except.error e) L s g = Except.error e)
    ∧ (∀ (dl : List (List Char)) (L : List (List Char)) (s : Option (List Char)),
        runMain (Except.ok dl) L s none
          = Except.ok
              ((save_playlist (update_playlist (parse_m3u_playlist L)
                  (parse_m3u_playlist dl)).1 s).1,
                (update_playlist (parse_m3u_playlist L) (parse_m3u_playlist dl)).2,
                false, none)) :=
  ⟨fun _ _ _ _ => rfl, fun _ _ _ => rfl⟩

/-! Claim C8: the EPG filter. -/

theorem elemTag_mk (t : List Char) (a : List (List Char × List Char)) (cs : List XmlElem) :
    elemTag (XmlElem.mk t a cs) = t := rfl

theorem elemAttrs_mk (t : List Char) (a : List (List Char × List Char)) (cs : List XmlElem) :
    elemAttrs (XmlElem.mk t a cs) = a := rfl

theorem elemChildren_mk (t : List Char) (a : List (List Char × List Char)) (cs : List XmlElem) :
    elemChildren (XmlElem.mk t a cs) = cs := rfl

theorem findall_desc_tag {t : List Char} {root e : XmlElem}
    (h : e ∈ findall_desc t root) : elemTag e = t := by
  unfold findall_desc at h
  have hp := List.of_mem_filter h
  simpa using hp

theorem hasKey_dictInsert (d : EpgDict) (i k : List Char) (v : XmlElem) :
    hasKey (dictInsert d i v) k = (hasKey d k || decide (i = k)) := by
  unfold dictInsert
  by_cases hik : hasKey d i = true
  · rw [if_pos hik]
    have hmap : hasKey (d.map (fun p => if p.1 = i then (i, v) else p)) k = hasKey d k := by
      unfold hasKey
      rw [List.any_map]
      congr 1
      funext p
      by_cases hp : p.1 = i
      · simp [hp]
      · simp [hp]
    rw [hmap]
    by_cases hk : i = k
    · subst hk
      simp [hik]
    · simp [hk]
  · rw [if_neg hik]
    unfold hasKey
    rw [List.any_append]
    simp [hasKey]

theorem dictGet_isSome_iff (d : EpgDict) (k : List Char) :
    (dictGet d k).isSome = true ↔ hasKey d k = true := by
  unfold dictGet hasKey
  rw [List.any_eq_true]
  constructor
  · intro h
    cases hf : d.find? (fun p => decide (p.1 = k)) with
    | none => rw [hf] at h; simp at h
    | some pr =>
      have hx := List.find?_some hf
      exact ⟨pr, List.mem_of_find?_eq_some hf, hx⟩
  · rintro ⟨pr, hmem, hpr⟩
    have hsome : (d.find? (fun p => decide (p.1 = k))).isSome :=
      List.find?_isSome.mpr ⟨pr, hmem, hpr⟩
    obtain ⟨q, hq⟩ := Option.isSome_iff_exists.mp hsome
    simp [hq]

theorem dictInsert_inv {root : XmlElem} {d : EpgDict} (hinv : DictInv root d)
    {k : List Char} {v : XmlElem} (hk : k ≠ []) (htag : elemTag v = str "channel")
    (hid : getAttr v (str "id") = some k) (hmem : v ∈ findall_desc (str "channel") root) :
    DictInv root (dictInsert d k v) := by
  intro p hp
  unfold dictInsert at hp
  split at hp
  · rw [List.mem_map] at hp
    obtain ⟨q, hq, hqe⟩ := hp
    by_cases hqk : q.1 = k
    · rw [if_pos hqk] at hqe
      rw [← hqe]
      exact ⟨hk, htag, hid, hmem⟩
    · rw [if_neg hqk] at hqe
      rw [← hqe]
      exact hinv q hq
  · rw [List.mem_append] at hp
    rcases hp with h | h
    · exact hinv p h
    · rw [List.mem_singleton] at h
      rw [h]
      exact ⟨hk, htag, hid, hmem⟩

theorem dictStep_inv {root : XmlElem} {d : EpgDict} (hinv : DictInv root d)
    {c : XmlElem} (htag : elemTag c = str "channel")
    (hmem : c ∈ findall_desc (str "channel") root) :
    DictInv root (dictStep d c) := by
  unfold dictStep
  cases hattr : getAttr c (str "id") with
  | none => exact hinv
  | some i =>
    dsimp only
    by_cases hi : i = []
    · rw [if_pos hi]; exact hinv
    · rw [if_neg hi]
      exact dictInsert_inv hinv hi htag hattr hmem

theorem hasKey_dictStep (d : EpgDict) (c : XmlElem) (k : List Char) :
    hasKey (dictStep d c) k
      = (hasKey d k || (decide (getAttr c (str "id") = some k) && !k.isEmpty)) := by
  unfold dictStep
  cases hattr : getAttr c (str "id") with
  | none => simp
  | some i =>
    dsimp only
    by_cases hi : i = []
    · rw [if_pos hi]
      subst hi
      by_cases hk : k = []
      · subst hk; simp
      · have : (some ([] : List Char) = some k) = False := by simp [Ne.symm hk]
        simp [this]
    · rw [if_neg hi, hasKey_dictInsert]
      by_cases hk : i = k
      · subst hk
        simp [List.isEmpty_iff, hi]
      · have : (some i = some k) = False := by simp [hk]
        simp [this, hk]

theorem foldl_dict_inv {root : XmlElem} :
    ∀ (L : List XmlElem) (d : EpgDict), DictInv root d →
      (∀ c ∈ L, elemTag c = str "channel" ∧ c ∈ findall_desc (str "channel") root) →
      DictInv root (L.foldl dictStep d) := by
  intro L
  induction L with
  | nil => intro d hd _; exact hd
  | cons c cs ih =>
    intro d hd hL
    rw [List.foldl_cons]
    exact ih (dictStep d c) (dictStep_inv hd (hL c (by simp)).1 (hL c (by simp)).2)
      (fun x hx => hL x (by simp [hx]))

theorem foldl_dict_hasKey :
    ∀ (L : List XmlElem) (d : EpgDict) (k : List Char),
      hasKey (L.foldl dictStep d) k
        = (hasKey d k
            || L.any (fun c => decide (getAttr c (str "id") = some k) && !k.isEmpty)) := by
  intro L
  induction L with
  | nil => intro d k; simp
  | cons c cs ih =>
    intro d k
    rw [List.foldl_cons, ih, hasKey_dictStep]
    simp [Bool.or_assoc]

theorem parse_dict_inv (root : XmlElem) : DictInv root (parse_channels_dict root) := by
  unfold parse_channels_dict
  exact foldl_dict_inv _ [] (fun p hp => by simp at hp)
    (fun c hc => ⟨findall_desc_tag hc, hc⟩)

theorem parse_dict_hasKey (root : XmlElem) (k : List Char) :
    hasKey (parse_channels_dict root) k = true
      ↔ (k ≠ [] ∧ ∃ e ∈ findall_desc (str "channel") root, getAttr e (str "id") = some k) := by
  unfold parse_channels_dict
  rw [foldl_dict_hasKey]
  have h0 : hasKey [] k = false := rfl
  rw [h0, Bool.false_or, List.any_eq_true]
  constructor
  · rintro ⟨e, he, hpe⟩
    rw [Bool.and_eq_true] at hpe
    refine ⟨by simpa [List.isEmpty_iff] using hpe.2, e, he, by simpa using hpe.1⟩
  · rintro ⟨hk, e, he, hpe⟩
    exact ⟨e, he, by simp [hpe, List.isEmpty_iff, hk]⟩

theorem parse_dict_get {root : XmlElem} {k : List Char} {v : XmlElem}
    (h : dictGet (parse_channels_dict root) k = some v) :
    k ≠ [] ∧ elemTag v = str "channel" ∧ getAttr v (str "id") = some k ∧
      v ∈ findall_desc (str "channel") root := by
  unfold dictGet at h
  cases hf : (parse_channels_dict root).find? (fun p => decide (p.1 = k)) with
  | none => rw [hf] at h; simp at h
  | some pr =>
    rw [hf] at h
    simp at h
    have hmem := List.mem_of_find?_eq_some hf
    have hkey : pr.1 = k := by simpa using List.find?_some hf
    have hinv := parse_dict_inv root pr hmem
    rw [← h, ← hkey]
    exact hinv

/-- C8: the pruned guide copies the document-level attributes unchanged,
    contains as channel children exactly the identifiers that are both in
    the keep set and carried (non-empty) by some channel element of the
    upstream guide, and contains as programme children exactly the upstream
    programme elements whose channel reference is among those retained
    identifiers. -/
theorem C8_confirmed (root : XmlElem) (ids : List (List Char)) :
    elemAttrs (filter_epg_by_channels root ids (parse_channels_dict root)) = elemAttrs root
    ∧ (∀ i : List Char,
        (∃ e ∈ elemChildren (filter_epg_by_channels root ids (parse_channels_dict root)),
          elemTag e = str "channel" ∧ getAttr e (str "id") = some i)
        ↔ (i ∈ ids ∧ i ≠ [] ∧
            ∃ e ∈ findall_desc (str "channel") root, getAttr e (str "id") = some i))
    ∧ (∀ p : XmlElem,
        (p ∈ elemChildren (filter_epg_by_channels root ids (parse_channels_dict root))
          ∧ elemTag p = str "programme")
        ↔ (p ∈ findall_desc (str "programme") root ∧
            ∃ r, getAttr p (str "channel") = some r ∧ r ∈ ids ∧ r ≠ [] ∧
              ∃ e ∈ findall_desc (str "channel") root, getAttr e (str "id") = some r)) := by
  unfold filter_epg_by_channels
  dsimp only
  simp only [elemAttrs_mk, elemChildren_mk]
  refine ⟨trivial, ?_, ?_⟩
  · intro i
    constructor
    · rintro ⟨e, he, htag, hid⟩
      rw [List.mem_append] at he
      rcases he with he | he
      · rw [List.mem_filterMap] at he
        obtain ⟨j, hj, hgj⟩ := he
        have hj' := List.mem_filter.mp hj
        obtain ⟨hjne, hjtag, hjid, hjmem⟩ := parse_dict_get hgj
        have hij : i = j := by
          rw [hjid] at hid
          exact (Option.some_inj.mp hid).symm
        subst hij
        exact ⟨hj'.1, hjne, e, hjmem, hjid⟩
      · rw [List.mem_filter] at he
        have := findall_desc_tag he.1
        rw [htag] at this
        exact absurd this (by decide)
    · rintro ⟨hin, hne, e, hmem, hid⟩
      have hkey : hasKey (parse_channels_dict root) i = true :=
        (parse_dict_hasKey root i).mpr ⟨hne, e, hmem, hid⟩
      have hsome : (dictGet (parse_channels_dict root) i).isSome = true :=
        (dictGet_isSome_iff _ _).mpr hkey
      obtain ⟨v, hv⟩ := Option.isSome_iff_exists.mp hsome
      obtain ⟨hvne, hvtag, hvid, hvmem⟩ := parse_dict_get hv
      refine ⟨v, ?_, hvtag, hvid⟩
      rw [List.mem_append]
      left
      rw [List.mem_filterMap]
      exact ⟨i, List.mem_filter.mpr ⟨hin, by simp [hv]⟩, hv⟩
  · intro p
    constructor
    · rintro ⟨hp, htag⟩
      rw [List.mem_append] at hp
      rcases hp with hp | hp
      · rw [List.mem_filterMap] at hp
        obtain ⟨j, hj, hgj⟩ := hp
        have := (parse_dict_get hgj).2.1
        rw [htag] at this
        exact absurd this (by decide)
      · rw [List.mem_filter] at hp
        refine ⟨hp.1, ?_⟩
        have hpred := hp.2
        cases hattr : getAttr p (str "channel") with
        | none => rw [hattr] at hpred; simp at hpred
        | some r =>
          rw [hattr] at hpred
          simp at hpred
          have hr := hpred
          have hsome := hr.2
          rw [dictGet_isSome_iff] at hsome
          obtain ⟨hrne, e, hemem, heid⟩ := (parse_dict_hasKey root r).mp hsome
          exact ⟨r, rfl, hr.1, hrne, e, hemem, heid⟩
    · rintro ⟨hmem, r, hattr, hin, hne, e, hemem, heid⟩
      have hkey : hasKey (parse_channels_dict root) r = true :=
        (parse_dict_hasKey root r).mpr ⟨hne, e, hemem, heid⟩
      have hsome : (dictGet (parse_channels_dict root) r).isSome = true :=
        (dictGet_isSome_iff _ _).mpr hkey
      constructor
      · rw [List.mem_append]
        right
        rw [List.mem_filter]
        refine ⟨hmem, ?_⟩
        rw [hattr]
        simp only [decide_eq_true_eq]
        exact List.mem_filter.mpr ⟨hin, hsome⟩
      · exact findall_desc_tag hmem

/-- C8 witness: on the two-channel guide with keep set containing ESPN.us
    only, the pruned guide contains the ESPN.us channel element and the
    programme referencing it, and neither the CNN.us channel nor its
    programme. -/
theorem C8_confirmed_witness :
    (∃ e ∈ elemChildren (filter_epg_by_channels xmlRoot [str "ESPN.us"]
        (parse_channels_dict xmlRoot)),
      elemTag e = str "channel" ∧ getAttr e (str "id") = some (str "ESPN.us"))
    ∧ ¬ (∃ e ∈ elemChildren (filter_epg_by_channels xmlRoot [str "ESPN.us"]
          (parse_channels_dict xmlRoot)),
        elemTag e = str "channel" ∧ getAttr e (str "id") = some (str "CNN.us"))
    ∧ (xmlPr1 ∈ elemChildren (filter_epg_by_channels xmlRoot [str "ESPN.us"]
          (parse_channels_dict xmlRoot))
        ∧ elemTag xmlPr1 = str "programme")
    ∧ ¬ (xmlPr2 ∈ elemChildren (filter_epg_by_channels xmlRoot [str "ESPN.us"]
          (parse_channels_dict xmlRoot))
        ∧ elemTag xmlPr2 = str "programme") := by
  have h := C8_confirmed xmlRoot [str "ESPN.us"]
  refine ⟨?_, ?_, ?_, ?_⟩
  · exact (h.2.1 (str "ESPN.us")).mpr
      ⟨by simp, by decide, xmlCh1, List.mem_cons_self _ _, rfl⟩
  · intro hx
    have hc := ((h.2.1 (str "CNN.us")).mp hx).1
    simp at hc
    exact absurd hc (by decide)
  · exact (h.2.2 xmlPr1).mpr
      ⟨List.mem_cons_self _ _,
        str "ESPN.us", rfl, by simp, by decide, xmlCh1, List.mem_cons_self _ _, rfl⟩
  · intro hx
    obtain ⟨r, hr, hrin, -⟩ := ((h.2.2 xmlPr2).mp hx).2
    have hrc : r = str "CNN.us" := by
      have h2 : getAttr xmlPr2 (str "channel") = some (str "CNN.us") := rfl
      rw [h2] at hr
      exact (Option.some_inj.mp hr).symm
    subst hrc
    simp at hrin
    exact absurd hrin (by decide)

end WatchPoint
